import Mathlib

/-!
Verification of the MNB exchange-rate fetcher (`mnb.py`): a shallow
embedding of the XML-parsing and output-formatting layer, with theorems
settling the specified behaviour of `XMLParser.parse_current_rates`,
`XMLParser.parse_historical_rates` and the `OutputFormatter` methods.

Modelling conventions:
* An XML document that `lxml.etree.fromstring` accepts is modelled as an
  element tree (`XmlElem`); an input it rejects is `XmlInput.malformed msg`
  where `msg` is the text of the `XMLSyntaxError`.  `lxml` itself is a
  third-party collaborator, so only its result is modelled.
* Python machine floats are modelled as exact rationals: `float(s)` on a
  plain decimal literal is `pyFloatQ`, and the IEEE-754 rounding of the
  resulting double is below the abstraction level of every claim treated
  here.  Likewise `repr(float)` (shortest round-trip form) is modelled by
  `pyFloatRepr`, an exact decimal rendering.
* Python exceptions become `Except` values.  Each `raise` site is kept
  distinct so that the handler chains of the two parsers can be modelled
  exactly; in the source every error that escapes is the single class
  `MNBClientError`, distinguished by its message.
* Python passes the formatter arguments by reference, so a formatter could
  mutate them; the embedding therefore threads the argument through and
  returns it next to the produced output, translating each read-only
  source statement as-is.
-/

namespace Mnb

/-- An XML element as produced by `lxml.etree.fromstring`: tag, attributes
in document order, text content (`None` for an empty element) and child
elements in document order. -/
inductive XmlElem : Type where
  | mk : String → List (String × String) → Option String → List XmlElem → XmlElem

def XmlElem.tag : XmlElem → String
  | .mk t _ _ _ => t

def XmlElem.attrs : XmlElem → List (String × String)
  | .mk _ a _ _ => a

def XmlElem.text : XmlElem → Option String
  | .mk _ _ x _ => x

def XmlElem.children : XmlElem → List XmlElem
  | .mk _ _ _ c => c

/-- `element.get(k)`: the value of attribute `k`, `None` when absent. -/
def XmlElem.attr (e : XmlElem) (k : String) : Option String :=
  (e.attrs.find? (fun p => p.1 == k)).map (fun p => p.2)

/-- `element.get(k, d)`: attribute lookup with a default. -/
def XmlElem.attrD (e : XmlElem) (k d : String) : String :=
  (e.attr k).getD d

/-- `element.find(t)` for a plain tag path: the first direct child with
tag `t`, `None` when there is none. -/
def findChild (e : XmlElem) (t : String) : Option XmlElem :=
  e.children.find? (fun c => c.tag == t)

/-- `element.findall(t)` for a plain tag path: all direct children with
tag `t`, in document order. -/
def childrenTagged (e : XmlElem) (t : String) : List XmlElem :=
  e.children.filter (fun c => c.tag == t)

/-- The outcome of `lxml.etree.fromstring` on the input text: either an
`XMLSyntaxError` (with its message) or the parsed root element. -/
inductive XmlInput : Type where
  | malformed (msg : String)
  | wellFormed (root : XmlElem)

/-- Decimal digits to a natural number. -/
def digitsToNat (l : List Char) : Nat :=
  l.foldl (fun a c => a * 10 + (c.toNat - 48)) 0

/-- Model of the Python builtin `int(s)` on the attribute strings handled
here: an optional sign followed by decimal digits (whitespace and
underscore forms do not occur in the claims and are not modelled).
`none` models the `ValueError` raise. -/
def pyIntStr (s : String) : Option Int :=
  let cs := s.toList
  let signed : Bool × List Char :=
    match cs with
    | '-' :: r => (true, r)
    | '+' :: r => (false, r)
    | r => (false, r)
  if signed.2 ≠ [] ∧ signed.2.all Char.isDigit then
    let n : Int := (digitsToNat signed.2 : Nat)
    some (if signed.1 then -n else n)
  else none

/-- Model of the Python builtin `float(s)` on plain decimal literals: an
optional sign, then digits with at most one decimal point (exponent and
inf/nan forms do not occur in these documents and are not modelled).  The
value is the exact rational denoted (built with `mkRat`, so
`d₁.d₂ = (d₁·10^|d₂| + d₂) / 10^|d₂|`); `none` models the `ValueError`. -/
def pyFloatQ (s : String) : Option ℚ :=
  let cs := s.toList
  let signed : Bool × List Char :=
    match cs with
    | '-' :: r => (true, r)
    | '+' :: r => (false, r)
    | r => (false, r)
  let ip := signed.2.takeWhile Char.isDigit
  let rest := signed.2.drop ip.length
  let sig : Int → Int := fun n => if signed.1 then -n else n
  match rest with
  | [] => if ip = [] then none else some (mkRat (sig (digitsToNat ip)) 1)
  | '.' :: fp =>
    if fp.all Char.isDigit ∧ (ip ≠ [] ∨ fp ≠ []) then
      some (mkRat (sig (digitsToNat ip * 10 ^ fp.length + digitsToNat fp)) (10 ^ fp.length))
    else none
  | _ => none

/-- `s.replace(",", ".")`: every comma becomes a dot (the pattern is a
single character, so `String.map` is exact). -/
def pyReplaceCommaDot (s : String) : String :=
  String.mk (s.toList.map (fun c => if c == ',' then '.' else c))

/-- Rendering of an optional string inside a Python f-string: `None`
prints as `"None"`. -/
def pyStrOpt : Option String → String
  | none => "None"
  | some s => s

/-- Digit string of `n` with a decimal point `k` places from the right
(`k > 0`), zero-padded on the left as needed. -/
def decStr (n : Nat) (k : Nat) : String :=
  let ds := (toString n).toList
  let padded := List.replicate (k + 1 - ds.length) '0' ++ ds
  String.mk (padded.take (padded.length - k)) ++ "." ++
    String.mk (padded.drop (padded.length - k))

/-- Model of `repr(float)` / f-string rendering of a float for values that
are decimal fractions (the only floats the program produces): the shortest
exact decimal form, with Python printing integral floats as `x.0`.  The
final branch (a rational that is not a decimal fraction) cannot arise from
a Python float and is rendered as a plain fraction. -/
def pyFloatRepr (q : ℚ) : String :=
  let sgn := if q.num < 0 then "-" else ""
  let nAbs := q.num.natAbs
  match (List.range 41).find? (fun k => (10 : Nat) ^ k % q.den == 0) with
  | some 0 => sgn ++ toString nAbs ++ ".0"
  | some (k + 1) => sgn ++ decStr (nAbs * ((10 : Nat) ^ (k + 1) / q.den)) (k + 1)
  | none => sgn ++ toString nAbs ++ "/" ++ toString q.den

/-- `ExchangeRate` dataclass.  The `currency` field is what
`rate_element.get("curr")` returned, which is `None` when the attribute is
absent (the dataclass performs no runtime check). -/
structure ExchangeRate : Type where
  currency : Option String
  unit : Int
  rate : ℚ
  date : String
deriving DecidableEq

/-- `ExchangeRate.__str__`. -/
def ExchangeRate.str (r : ExchangeRate) : String :=
  pyStrOpt r.currency ++ "\t" ++ toString r.unit ++ "\t" ++ pyFloatRepr r.rate

/-- `ExchangeRates` dataclass. -/
structure ExchangeRates : Type where
  date : String
  rates : List ExchangeRate
deriving DecidableEq

/-- The Python exceptions that can arise inside the `try`
bodies of the two parsers, each carrying its `str()` message. -/
inductive PyExc : Type where
  | mnbClientError (msg : String)
  | xmlSyntaxError (msg : String)
  | valueError (msg : String)
  | attributeError (msg : String)
deriving DecidableEq

/-- The `MNBClientError` that finally escapes a parser, tagged by the
raise site of its handler chain (in the source all three are the single
class `MNBClientError`; the message prefixes are pairwise distinct, so the
tag adds no information a caller could not recover). -/
inductive ParseError : Type where
  | invalidXml (msg : String)
  | dataParse (msg : String)
  | unexpected (msg : String)
deriving DecidableEq

def ParseError.message : ParseError → String
  | .invalidXml m => m
  | .dataParse m => m
  | .unexpected m => m

/-- The body of the `for rate_element in day_element.findall("Rate")`
loop for one element: read `curr` (no failure possible), convert the
`unit` attribute with `int` (default `"1"`), then normalise the text with
`.replace(",", ".")` and convert with `float`.  Absent text raises
`AttributeError` (`None.replace`); failed conversions raise `ValueError`. -/
def parseRateElem (d : String) (r : XmlElem) : Except PyExc ExchangeRate :=
  let currency := r.attr "curr"
  match pyIntStr (r.attrD "unit" "1") with
  | none =>
    .error (.valueError ("invalid literal for int() with base 10: " ++ r.attrD "unit" "1"))
  | some u =>
    match r.text with
    | none => .error (.attributeError "NoneType object has no attribute replace")
    | some t =>
      match pyFloatQ (pyReplaceCommaDot t) with
      | none =>
        .error (.valueError ("could not convert string to float: " ++ pyReplaceCommaDot t))
      | some q => .ok { currency := currency, unit := u, rate := q, date := d }

/-- The rate loop: elements are processed in document order and the first
exception aborts the loop. -/
def parseRatesLoop (d : String) : List XmlElem → Except PyExc (List ExchangeRate)
  | [] => .ok []
  | r :: rs =>
    match parseRateElem d r with
    | .error e => .error e
    | .ok x =>
      match parseRatesLoop d rs with
      | .error e => .error e
      | .ok xs => .ok (x :: xs)

/-- `parse_current_rates` from the found `Day` element on: read the
`date` attribute (`if not date_str` treats both `None` and `""` as
missing), then run the rate loop. -/
def currentDay (day : XmlElem) : Except PyExc ExchangeRates :=
  match day.attr "date" with
  | none => .error (.mnbClientError "Date not found in response")
  | some d =>
    if d = "" then .error (.mnbClientError "Date not found in response")
    else
      match parseRatesLoop d (childrenTagged day "Rate") with
      | .error e => .error e
      | .ok rs => .ok { date := d, rates := rs }

/-- The `try` body of `parse_current_rates`: parse the text, find the
first `Day` child, then process it. -/
def currentBody : XmlInput → Except PyExc ExchangeRates
  | .malformed m => .error (.xmlSyntaxError m)
  | .wellFormed root =>
    match findChild root "Day" with
    | none => .error (.mnbClientError "No exchange rate data found in response")
    | some day => currentDay day

/-- The handler chain of `parse_current_rates`.  An exception raised in
the `try` body is matched against the clauses in order:
`etree.XMLSyntaxError` first, then `(ValueError, AttributeError)`, then
the bare `except Exception`.  `MNBClientError` is itself an `Exception`
subclass, so the `MNBClientError`s raised directly in the body are caught
by the last clause and re-wrapped with the `"Failed to parse response: "`
prefix (an `MNBClientError` raised inside a handler clause propagates and
is not re-matched). -/
def handleCurrentExc : PyExc → ParseError
  | .xmlSyntaxError m => .invalidXml ("Invalid XML response: " ++ m)
  | .valueError m => .dataParse ("Failed to parse exchange rate data: " ++ m)
  | .attributeError m => .dataParse ("Failed to parse exchange rate data: " ++ m)
  | .mnbClientError m => .unexpected ("Failed to parse response: " ++ m)

/-- `XMLParser.parse_current_rates`. -/
def parse_current_rates (x : XmlInput) : Except ParseError ExchangeRates :=
  match currentBody x with
  | .ok v => .ok v
  | .error e => .error (handleCurrentExc e)

/-- The historical result: a Python `dict` as an association list in
insertion order (values keep the raw `rate_element.text`, which is `None`
for an empty element). -/
abbrev HistMap := List (String × Option String)

/-- `rates[k] = v` on a Python dict: update in place when the key exists
(keeping its position), otherwise append. -/
def dinsert (m : HistMap) (k : String) (v : Option String) : HistMap :=
  if m.any (fun p => p.1 == k) then
    m.map (fun p => if p.1 == k then (k, v) else p)
  else m ++ [(k, v)]

/-- One iteration of the `for day in root.findall("Day")` loop: read the
`date` attribute and the first `Rate` child; store the raw text when the
`Rate` exists and the date is truthy (the text itself is NOT checked and
may be `None`). -/
def histStep (m : HistMap) (day : XmlElem) : HistMap :=
  match findChild day "Rate", day.attr "date" with
  | some r, some d => if d = "" then m else dinsert m d r.text
  | _, _ => m

/-- The `try` body of `parse_historical_rates` (no statement in the loop
can raise). -/
def historicalBody : XmlInput → Except PyExc HistMap
  | .malformed m => .error (.xmlSyntaxError m)
  | .wellFormed root => .ok ((childrenTagged root "Day").foldl histStep [])

/-- The handler chain of `parse_historical_rates`: `etree.XMLSyntaxError`
then the bare `except Exception`. -/
def handleHistExc : PyExc → ParseError
  | .xmlSyntaxError m => .invalidXml ("Invalid XML response: " ++ m)
  | .mnbClientError m => .unexpected ("Failed to parse response: " ++ m)
  | .valueError m => .unexpected ("Failed to parse response: " ++ m)
  | .attributeError m => .unexpected ("Failed to parse response: " ++ m)

/-- `XMLParser.parse_historical_rates`. -/
def parse_historical_rates (x : XmlInput) : Except ParseError HistMap :=
  match historicalBody x with
  | .ok v => .ok v
  | .error e => .error (handleHistExc e)

instance {ε α : Type} [DecidableEq ε] [DecidableEq α] : DecidableEq (Except ε α) :=
  fun a b =>
    match a, b with
    | .ok x, .ok y =>
      match decEq x y with
      | isTrue h => isTrue (by rw [h])
      | isFalse h => isFalse (by intro hc; cases hc; exact h rfl)
    | .error x, .error y =>
      match decEq x y with
      | isTrue h => isTrue (by rw [h])
      | isFalse h => isFalse (by intro hc; cases hc; exact h rfl)
    | .ok _, .error _ => isFalse (by intro hc; cases hc)
    | .error _, .ok _ => isFalse (by intro hc; cases hc)

/-- A JSON value as handled by the Python `json` module.  Python keeps
`int` and `float` apart in JSON (`1` vs `1.0`), hence two numeric
constructors.  `json.dumps` followed by `json.loads` is the standard
faithful standard-library serialization of such a value; the embedding therefore
works with the structured value itself, and decoding the emitted text is
modelled as the identity on it. -/
inductive JValue : Type where
  | null
  | bool (b : Bool)
  | jint (n : Int)
  | num (q : ℚ)
  | str (s : String)
  | arr (l : List JValue)
  | obj (fields : List (String × JValue))

/-- `json.dumps(None)` is `null`; a present string dumps as a string. -/
def jOfOpt : Option String → JValue
  | none => .null
  | some s => .str s

/-- `ExchangeRates.to_dict`: `{"date": ..., "rates": [{"currency": ...,
"unit": ..., "rate": ...}, ...]}` with the keys in this order. -/
def to_dict (er : ExchangeRates) : JValue :=
  .obj [ ("date", .str er.date)
       , ("rates", .arr (er.rates.map (fun r =>
           .obj [ ("currency", jOfOpt r.currency)
                , ("unit", .jint r.unit)
                , ("rate", .num r.rate) ])))]

/-- `OutputFormatter.format_table`: builds the `output` list (header line,
column row, then one `str(rate)` per rate) and joins it with newlines.
The second component is the argument handed back (the source only reads
it). -/
def format_table (er : ExchangeRates) : String × ExchangeRates :=
  let output := er.rates.foldl (fun acc r => acc ++ [r.str])
    ["Date: " ++ er.date, "Currency\tUnit\tRate"]
  (String.intercalate "\n" output, er)

/-- `OutputFormatter.format_json`: `json.dumps(to_dict(), indent=2)`,
modelled as the JSON value serialized (see `JValue`). -/
def format_json (er : ExchangeRates) : JValue × ExchangeRates :=
  (to_dict er, er)

/-- `OutputFormatter.format_csv`. -/
def format_csv (er : ExchangeRates) : String × ExchangeRates :=
  let output := er.rates.foldl (fun acc r =>
      acc ++ [er.date ++ "," ++ pyStrOpt r.currency ++ "," ++ toString r.unit ++ ","
        ++ pyFloatRepr r.rate])
    ["Date,Currency,Unit,Rate"]
  (String.intercalate "\n" output, er)

/-- `OutputFormatter.format_historical_table`: one `date: rate` line per
dict entry, in iteration (insertion) order. -/
def format_historical_table (m : HistMap) : String × HistMap :=
  let output := m.foldl (fun acc p => acc ++ [p.1 ++ ": " ++ pyStrOpt p.2]) []
  (String.intercalate "\n" output, m)

/-- `OutputFormatter.format_historical_json`, modelled like
`format_json`.  A `None` rate text dumps as JSON `null`. -/
def format_historical_json (m : HistMap) (currency : String) : JValue × HistMap :=
  (.obj [ ("currency", .str currency)
        , ("rates", .arr (m.map (fun p =>
            .obj [("date", .str p.1), ("rate", jOfOpt p.2)])))], m)

/-- Field lookup in a decoded JSON object (first occurrence, as
`json.loads` keeps the last duplicate key, but the program never emits
duplicate keys). -/
def jLookup (j : JValue) (k : String) : Option JValue :=
  match j with
  | .obj fields => (fields.find? (fun p => p.1 == k)).map (fun p => p.2)
  | _ => none

/-- Reading one rate object back out of decoded JSON: the `currency`,
`unit` and `rate` fields, requiring `unit` to be a JSON integer and
`rate` a JSON float (the claim says numeric, not strings). -/
def decodeRateObj (j : JValue) : Option (Option String × Int × ℚ) :=
  match jLookup j "currency", jLookup j "unit", jLookup j "rate" with
  | some c, some (.jint u), some (.num q) =>
    match c with
    | .null => some (none, u, q)
    | .str s => some (some s, u, q)
    | _ => none
  | _, _, _ => none

/-- Decoding every element of a JSON array as a rate object, failing if
any element fails. -/
def decodeRateList : List JValue → Option (List (Option String × Int × ℚ))
  | [] => some []
  | j :: js =>
    match decodeRateObj j, decodeRateList js with
    | some x, some xs => some (x :: xs)
    | _, _ => none

/-- Reading a whole single-date rates document back out of decoded JSON:
the `date` string and the list of decoded rate objects. -/
def decodeRatesDoc (j : JValue) : Option (String × List (Option String × Int × ℚ)) :=
  match jLookup j "date", jLookup j "rates" with
  | some (.str d), some (.arr l) => (decodeRateList l).map (fun rs => (d, rs))
  | _, _ => none

/-- Concrete current-rates document fixture (`SAMPLE_CURRENT_RATES_XML`
of the test suite): one `Day` with three `Rate` children. -/
def sampleDay : XmlElem :=
  .mk "Day" [("date", "2025-11-04")] none
    [ .mk "Rate" [("unit", "1"), ("curr", "USD")] (some "337.68") []
    , .mk "Rate" [("unit", "1"), ("curr", "EUR")] (some "388.37") []
    , .mk "Rate" [("unit", "100"), ("curr", "JPY")] (some "220.00") [] ]

def sampleRoot : XmlElem :=
  .mk "MNBCurrentExchangeRates" [] none [sampleDay]

/-- First `Day` of the historical fixture. -/
def histDay1 : XmlElem :=
  .mk "Day" [("date", "2025-11-04")] none
    [ .mk "Rate" [("unit", "1"), ("curr", "USD")] (some "337,68000") [] ]

/-- Concrete historical document fixture (`SAMPLE_HISTORICAL_RATES_XML`
of the test suite): two `Day` elements with comma-formatted
rate text. -/
def histSampleRoot : XmlElem :=
  .mk "MNBExchangeRates" [] none
    [ histDay1
    , .mk "Day" [("date", "2025-11-03")] none
        [ .mk "Rate" [("unit", "1"), ("curr", "USD")] (some "336,50000") [] ] ]

/-- The ExchangeRates value that `parse_current_rates` produces on
`histSampleRoot` (only the first Day is read, and the comma text is
normalised to a number). -/
def histSampleEr : ExchangeRates :=
  { date := "2025-11-04"
  , rates := [ { currency := some "USD", unit := 1, rate := mkRat 33768 100
               , date := "2025-11-04" } ] }

/-- Historical fixture with a duplicated date: the date `2025-11-04`
appears on the first and third `Day`. -/
def histDupRoot : XmlElem :=
  .mk "MNBExchangeRates" [] none
    [ .mk "Day" [("date", "2025-11-04")] none
        [ .mk "Rate" [("unit", "1"), ("curr", "USD")] (some "337,68000") [] ]
    , .mk "Day" [("date", "2025-11-03")] none
        [ .mk "Rate" [("unit", "1"), ("curr", "USD")] (some "336,50000") [] ]
    , .mk "Day" [("date", "2025-11-04")] none
        [ .mk "Rate" [("unit", "1"), ("curr", "USD")] (some "338,00000") [] ] ]

/-- The entry one Day element contributes in the historical loop, when it
qualifies: the `Rate` child must exist and the date attribute must be
truthy; the stored value is the raw rate text (possibly absent).  This is
the declarative counterpart of one `histStep` iteration (proved equal in
`histStep_eq`). -/
def dayEntry (day : XmlElem) : Option (String × Option String) :=
  match findChild day "Rate", day.attr "date" with
  | some r, some d => if d = "" then none else some (d, r.text)
  | _, _ => none

/-- The qualifying (date, raw text) pairs of a historical document in
document order, before dict insertion collapses duplicate dates. -/
def specEntries (root : XmlElem) : HistMap :=
  (childrenTagged root "Day").filterMap dayEntry

/-- Folding dict insertion over a list of entries (the loop of
`parse_historical_rates` viewed on the entries it actually stores). -/
def dfold (acc : HistMap) : List (String × Option String) → HistMap
  | [] => acc
  | (k, v) :: rest => dfold (dinsert acc k v) rest

/-- `rates[k]` on the resulting dict: the value at key `k`. -/
def dlookup (k : String) (m : HistMap) : Option (Option String) :=
  (m.find? (fun p => p.1 == k)).map (fun p => p.2)

/-- Keys in first-occurrence order, skipping those already seen. -/
def firstDedupAux (seen : List String) : List String → List String
  | [] => []
  | x :: xs =>
    if x ∈ seen then firstDedupAux seen xs
    else x :: firstDedupAux (x :: seen) xs

/-- Deduplication keeping the first occurrence of each element, in order:
the key order of a Python dict built by repeated assignment. -/
def firstDedup (l : List String) : List String :=
  firstDedupAux [] l

theorem foldl_append_singleton {α β : Type} (f : α → β) :
    ∀ (l : List α) (init : List β),
      l.foldl (fun acc x => acc ++ [f x]) init = init ++ l.map f := by
  intro l
  induction l with
  | nil => intro init; simp
  | cons x xs ih => intro init; simp [List.foldl_cons, ih]

/-- C6: for every ExchangeRates value with date d and rates r_1..r_n,
format_table returns exactly the newline-joined string whose first line is
"Date: " followed by d, whose second line is "Currency", "Unit", "Rate"
joined by single tab characters, and whose following n lines are, in
sequence order, the currency, unit and rate of each rate joined by single tab
characters, with no trailing newline (String.intercalate places the
separator strictly between the lines). -/
theorem c6_format_table_exact (er : ExchangeRates) :
    (format_table er).1 =
      String.intercalate "\n"
        (["Date: " ++ er.date, "Currency\tUnit\tRate"] ++
          er.rates.map (fun r =>
            pyStrOpt r.currency ++ "\t" ++ toString r.unit ++ "\t" ++ pyFloatRepr r.rate)) := by
  show String.intercalate "\n"
      (er.rates.foldl (fun acc r => acc ++ [r.str])
        ["Date: " ++ er.date, "Currency\tUnit\tRate"]) = _
  rw [foldl_append_singleton ExchangeRate.str er.rates]
  rfl

theorem decodeRateObj_of_rate (r : ExchangeRate) :
    decodeRateObj (JValue.obj
      [ ("currency", jOfOpt r.currency)
      , ("unit", .jint r.unit)
      , ("rate", .num r.rate) ]) = some (r.currency, r.unit, r.rate) := by
  cases h : r.currency with
  | none => simp [decodeRateObj, jLookup, jOfOpt, h]
  | some s => simp [decodeRateObj, jLookup, jOfOpt, h]

theorem decodeRateList_of_rates (l : List ExchangeRate) :
    decodeRateList
        (l.map (fun r => JValue.obj
          [ ("currency", jOfOpt r.currency)
          , ("unit", .jint r.unit)
          , ("rate", .num r.rate) ])) =
      some (l.map (fun r => (r.currency, r.unit, r.rate))) := by
  induction l with
  | nil => rfl
  | cons r rs ih => simp [decodeRateList, decodeRateObj_of_rate, ih]

/-- C7: for every ExchangeRates value, decoding the JSON produced by
format_json yields an object whose date field equals the date of the source
and whose rates array has one element per source rate, in order, with
currency, unit and rate fields equal to those of the source rate (unit
decoded as a JSON integer and rate as a JSON number, not as strings):
format followed by JSON decoding is the identity on the represented
data. -/
theorem c7_format_json_roundtrip (er : ExchangeRates) :
    decodeRatesDoc (format_json er).1 =
      some (er.date, er.rates.map (fun r => (r.currency, r.unit, r.rate))) := by
  show decodeRatesDoc (to_dict er) = _
  simp [to_dict, decodeRatesDoc, jLookup, decodeRateList_of_rates]

/-- C8: every formatting operation (format_table, format_json,
format_csv, format_historical_table, format_historical_json) hands its
input back unchanged: the embedding threads the mutable Python argument
through each formatter, and since the source only reads the argument, the
returned state equals the input.  Each formatter is moreover a total
function, so it never raises on any input value. -/
theorem c8_formatters_preserve_input :
    (∀ er : ExchangeRates, (format_table er).2 = er) ∧
    (∀ er : ExchangeRates, (format_json er).2 = er) ∧
    (∀ er : ExchangeRates, (format_csv er).2 = er) ∧
    (∀ m : HistMap, (format_historical_table m).2 = m) ∧
    (∀ (m : HistMap) (c : String), (format_historical_json m c).2 = m) :=
  ⟨fun _ => rfl, fun _ => rfl, fun _ => rfl, fun _ => rfl, fun _ _ => rfl⟩

theorem parseRateElem_ok (d : String) (r : XmlElem) (u : Int) (t : String) (q : ℚ)
    (hu : pyIntStr (r.attrD "unit" "1") = some u) (ht : r.text = some t)
    (hq : pyFloatQ (pyReplaceCommaDot t) = some q) :
    parseRateElem d r = .ok { currency := r.attr "curr", unit := u, rate := q, date := d } := by
  simp [parseRateElem, hu, ht, hq]

/-- Success of the whole rate loop, with the produced entries related
pointwise to the source elements. -/
theorem parseRatesLoop_ok (d : String) (l : List XmlElem)
    (h : ∀ r ∈ l, (pyIntStr (r.attrD "unit" "1")).isSome ∧
      ∃ t, r.text = some t ∧ (pyFloatQ (pyReplaceCommaDot t)).isSome) :
    ∃ es, parseRatesLoop d l = .ok es ∧
      List.Forall₂ (fun (r : XmlElem) (e : ExchangeRate) =>
        e.currency = r.attr "curr" ∧
        some e.unit = pyIntStr (r.attrD "unit" "1") ∧
        (∃ t, r.text = some t ∧ some e.rate = pyFloatQ (pyReplaceCommaDot t)) ∧
        e.date = d) l es := by
  induction l with
  | nil => exact ⟨[], rfl, List.Forall₂.nil⟩
  | cons r rs ih =>
    obtain ⟨hu, t, ht, hq⟩ := h r (List.mem_cons_self r rs)
    obtain ⟨u, hu⟩ := Option.isSome_iff_exists.mp hu
    obtain ⟨q, hq⟩ := Option.isSome_iff_exists.mp hq
    obtain ⟨es, hes, hrel⟩ := ih (fun r hr => h r (List.mem_cons_of_mem _ hr))
    refine ⟨{ currency := r.attr "curr", unit := u, rate := q, date := d } :: es, ?_, ?_⟩
    · simp [parseRatesLoop, parseRateElem_ok d r u t q hu ht hq, hes]
    · exact List.Forall₂.cons ⟨rfl, by simp [hu], ⟨t, ht, by simp [hq]⟩, rfl⟩ hrel

/-- Inversion of one loop step: a successfully parsed entry carries the
number obtained from the text of the element after comma normalisation. -/
theorem parseRateElem_ok_inv (d : String) (r : XmlElem) (x : ExchangeRate)
    (h : parseRateElem d r = .ok x) :
    ∃ t, r.text = some t ∧ some x.rate = pyFloatQ (pyReplaceCommaDot t) := by
  simp only [parseRateElem] at h
  cases hu : pyIntStr (r.attrD "unit" "1") with
  | none => simp only [hu] at h; exact Except.noConfusion h
  | some u =>
    simp only [hu] at h
    cases ht : r.text with
    | none => simp only [ht] at h; exact Except.noConfusion h
    | some t =>
      simp only [ht] at h
      cases hq : pyFloatQ (pyReplaceCommaDot t) with
      | none => simp only [hq] at h; exact Except.noConfusion h
      | some q =>
        simp only [hq] at h
        cases h
        exact ⟨t, rfl, by simp [hq]⟩

/-- If the rate loop succeeds, the rate of each produced entry is the number
parsed from the text of the element after comma normalisation. -/
theorem parseRatesLoop_ok_inv (d : String) :
    ∀ (l : List XmlElem) (es : List ExchangeRate), parseRatesLoop d l = .ok es →
      List.Forall₂ (fun (r : XmlElem) (e : ExchangeRate) =>
        ∃ t, r.text = some t ∧ some e.rate = pyFloatQ (pyReplaceCommaDot t)) l es := by
  intro l
  induction l with
  | nil =>
    intro es hes
    cases hes
    exact List.Forall₂.nil
  | cons r rs ih =>
    intro es hes
    simp only [parseRatesLoop] at hes
    cases he : parseRateElem d r with
    | error e => simp only [he] at hes; exact Except.noConfusion hes
    | ok x =>
      simp only [he] at hes
      cases hloop : parseRatesLoop d rs with
      | error e => simp only [hloop] at hes; exact Except.noConfusion hes
      | ok xs =>
        simp only [hloop] at hes
        cases hes
        exact List.Forall₂.cons (parseRateElem_ok_inv d r x he) (ih xs hloop)

/-- C1: for every well-formed current-rates XML in which the first Day of the root
element carries a non-empty date attribute and contains N Rate elements,
each with convertible text and unit, parse_current_rates returns an
ExchangeRates whose date is the date of that Day, whose rates sequence has
exactly N entries in document order, and whose i-th entry takes its
currency from the curr attribute of the i-th Rate, its unit from the parsed
unit attribute (read with the default "1" when absent), its rate from the
comma-normalised parsed text, and its date from the container. -/
theorem c1_parse_current_rates_shape (root day : XmlElem) (d : String)
    (hday : findChild root "Day" = some day)
    (hdate : day.attr "date" = some d) (hne : d ≠ "")
    (hconv : ∀ r ∈ childrenTagged day "Rate",
      (pyIntStr (r.attrD "unit" "1")).isSome ∧
      ∃ t, r.text = some t ∧ (pyFloatQ (pyReplaceCommaDot t)).isSome) :
    ∃ er, parse_current_rates (.wellFormed root) = .ok er ∧
      er.date = d ∧
      er.rates.length = (childrenTagged day "Rate").length ∧
      ∀ (i : Nat) (hi : i < (childrenTagged day "Rate").length)
        (hi2 : i < er.rates.length),
        (er.rates.get ⟨i, hi2⟩).currency =
          ((childrenTagged day "Rate").get ⟨i, hi⟩).attr "curr" ∧
        some (er.rates.get ⟨i, hi2⟩).unit =
          pyIntStr (((childrenTagged day "Rate").get ⟨i, hi⟩).attrD "unit" "1") ∧
        (∃ t, ((childrenTagged day "Rate").get ⟨i, hi⟩).text = some t ∧
          some (er.rates.get ⟨i, hi2⟩).rate = pyFloatQ (pyReplaceCommaDot t)) ∧
        (er.rates.get ⟨i, hi2⟩).date = d := by
  obtain ⟨es, hes, hrel⟩ := parseRatesLoop_ok d (childrenTagged day "Rate") hconv
  refine ⟨{ date := d, rates := es }, ?_, rfl, ?_, ?_⟩
  · simp [parse_current_rates, currentBody, hday, currentDay, hdate, hne, hes]
  · exact (List.forall₂_iff_get.mp hrel).1.symm
  · intro i hi hi2
    obtain ⟨hc, hu, hq, hd⟩ := (List.forall₂_iff_get.mp hrel).2 i hi hi2
    exact ⟨hc, hu, hq, hd⟩

theorem c1_parse_current_rates_shape_witness :
    ∃ er, parse_current_rates (.wellFormed sampleRoot) = .ok er ∧
      er.date = "2025-11-04" ∧
      er.rates.length = (childrenTagged sampleDay "Rate").length ∧
      ∀ (i : Nat) (hi : i < (childrenTagged sampleDay "Rate").length)
        (hi2 : i < er.rates.length),
        (er.rates.get ⟨i, hi2⟩).currency =
          ((childrenTagged sampleDay "Rate").get ⟨i, hi⟩).attr "curr" ∧
        some (er.rates.get ⟨i, hi2⟩).unit =
          pyIntStr (((childrenTagged sampleDay "Rate").get ⟨i, hi⟩).attrD "unit" "1") ∧
        (∃ t, ((childrenTagged sampleDay "Rate").get ⟨i, hi⟩).text = some t ∧
          some (er.rates.get ⟨i, hi2⟩).rate = pyFloatQ (pyReplaceCommaDot t)) ∧
        (er.rates.get ⟨i, hi2⟩).date = "2025-11-04" :=
  c1_parse_current_rates_shape sampleRoot sampleDay "2025-11-04" rfl rfl (by decide)
    (by
      intro r hr
      have hlist : childrenTagged sampleDay "Rate" =
        [ .mk "Rate" [("unit", "1"), ("curr", "USD")] (some "337.68") []
        , .mk "Rate" [("unit", "1"), ("curr", "EUR")] (some "388.37") []
        , .mk "Rate" [("unit", "100"), ("curr", "JPY")] (some "220.00") [] ] := rfl
      rw [hlist] at hr
      simp only [List.mem_cons, List.not_mem_nil, or_false] at hr
      rcases hr with rfl | rfl | rfl
      · exact ⟨by decide, "337.68", rfl, by decide⟩
      · exact ⟨by decide, "388.37", rfl, by decide⟩
      · exact ⟨by decide, "220.00", rfl, by decide⟩)


/-- C2 counterexample: on well-formed XML whose root has no Day child the
parse fails, but the escaping error is the catch-all re-wrap ("Failed to
parse response: ..."), not an error carrying exactly the message "No
exchange rate data found in response": the MNBClientError raised in the
try body is intercepted by the bare except-Exception clause of that try
statement and re-raised with the prefix. -/
theorem c2_counterexample :
    parse_current_rates (.wellFormed (.mk "MNBCurrentExchangeRates" [] none [])) =
      .error (.unexpected "Failed to parse response: No exchange rate data found in response") ∧
    "Failed to parse response: No exchange rate data found in response" ≠
      "No exchange rate data found in response" :=
  ⟨by decide, by decide⟩

/-- C2 (amended): on well-formed XML whose root has no Day child,
parse_current_rates fails with the catch-all variant carrying "Failed to
parse response: No exchange rate data found in response" (the
MissingDataError raised inside the try body is caught by the bare
except-Exception clause of the same statement and re-wrapped); when the Day
element exists but its date attribute is absent or empty, it fails with
"Failed to parse response: Date not found in response"; on text that is
not well-formed XML it fails with the InvalidXmlError variant; the three
failures remain distinguishable by the caller through their messages. -/
theorem c2_error_paths :
    (∀ root : XmlElem, findChild root "Day" = none →
      parse_current_rates (.wellFormed root) =
        .error (.unexpected "Failed to parse response: No exchange rate data found in response")) ∧
    (∀ (root day : XmlElem), findChild root "Day" = some day →
      (day.attr "date" = none ∨ day.attr "date" = some "") →
      parse_current_rates (.wellFormed root) =
        .error (.unexpected "Failed to parse response: Date not found in response")) ∧
    (∀ msg : String, parse_current_rates (.malformed msg) =
      .error (.invalidXml ("Invalid XML response: " ++ msg))) := by
  refine ⟨?_, ?_, ?_⟩
  · intro root h
    simp [parse_current_rates, currentBody, h, handleCurrentExc]
  · intro root day hday hdate
    rcases hdate with h | h
    · simp [parse_current_rates, currentBody, hday, currentDay, h, handleCurrentExc]
    · simp [parse_current_rates, currentBody, hday, currentDay, h, handleCurrentExc]
  · intro msg
    simp [parse_current_rates, currentBody, handleCurrentExc]

theorem c2_error_paths_witness :
    parse_current_rates (.wellFormed (.mk "MNBCurrentExchangeRates" [] none [])) =
      .error (.unexpected "Failed to parse response: No exchange rate data found in response") ∧
    parse_current_rates (.wellFormed (.mk "MNBCurrentExchangeRates" [] none
        [.mk "Day" [] none []])) =
      .error (.unexpected "Failed to parse response: Date not found in response") ∧
    parse_current_rates (.malformed "Start tag expected") =
      .error (.invalidXml "Invalid XML response: Start tag expected") :=
  ⟨c2_error_paths.1 (.mk "MNBCurrentExchangeRates" [] none []) rfl,
   c2_error_paths.2.1 (.mk "MNBCurrentExchangeRates" [] none [.mk "Day" [] none []])
     (.mk "Day" [] none []) rfl (Or.inl rfl),
   c2_error_paths.2.2 "Start tag expected"⟩

theorem findChild_append_first (t : String) (d : XmlElem) (htag : d.tag = t) :
    ∀ (pre post : List XmlElem), (∀ e ∈ pre, e.tag ≠ t) →
      List.find? (fun c => c.tag == t) (pre ++ d :: post) = some d := by
  intro pre
  induction pre with
  | nil =>
    intro post _
    simp [List.find?_cons, htag]
  | cons e es ih =>
    intro post hpre
    have he : (e.tag == t) = false :=
      beq_eq_false_iff_ne.mpr (hpre e (List.mem_cons_self e es))
    simp only [List.cons_append, List.find?_cons, he]
    exact ih post (fun x hx => hpre x (List.mem_cons_of_mem e hx))

/-- C9: parse_current_rates reads only the first Day element (in document
order) of the root: its result on a document is the same as on the
document truncated to end at that first Day, so the returned date and
rates come exclusively from the first Day and Rate elements under any
later Day element never appear in the result. -/
theorem c9_first_day_only (root day : XmlElem) (pre post : List XmlElem)
    (hch : root.children = pre ++ day :: post)
    (hpre : ∀ e ∈ pre, e.tag ≠ "Day") (htag : day.tag = "Day") :
    parse_current_rates (.wellFormed root) =
      parse_current_rates (.wellFormed (.mk root.tag root.attrs root.text (pre ++ [day]))) := by
  have h1 : findChild root "Day" = some day := by
    show List.find? _ root.children = some day
    rw [hch]
    exact findChild_append_first "Day" day htag pre post hpre
  have h2 : findChild (.mk root.tag root.attrs root.text (pre ++ [day])) "Day" = some day := by
    show List.find? _ (pre ++ [day]) = some day
    exact findChild_append_first "Day" day htag pre [] hpre
  simp [parse_current_rates, currentBody, h1, h2]

theorem c9_first_day_only_witness :
    parse_current_rates (.wellFormed (.mk "MNBCurrentExchangeRates" [] none
      [ .mk "Day" [("date", "2025-11-04")] none
          [ .mk "Rate" [("unit", "1"), ("curr", "USD")] (some "337.68") [] ]
      , .mk "Day" [("date", "2025-11-05")] none
          [ .mk "Rate" [("unit", "1"), ("curr", "EUR")] (some "388.37") [] ] ])) =
    parse_current_rates (.wellFormed (.mk "MNBCurrentExchangeRates" [] none
      [ .mk "Day" [("date", "2025-11-04")] none
          [ .mk "Rate" [("unit", "1"), ("curr", "USD")] (some "337.68") [] ] ])) :=
  c9_first_day_only
    (.mk "MNBCurrentExchangeRates" [] none
      [ .mk "Day" [("date", "2025-11-04")] none
          [ .mk "Rate" [("unit", "1"), ("curr", "USD")] (some "337.68") [] ]
      , .mk "Day" [("date", "2025-11-05")] none
          [ .mk "Rate" [("unit", "1"), ("curr", "EUR")] (some "388.37") [] ] ])
    (.mk "Day" [("date", "2025-11-04")] none
      [ .mk "Rate" [("unit", "1"), ("curr", "USD")] (some "337.68") [] ])
    [] [ .mk "Day" [("date", "2025-11-05")] none
          [ .mk "Rate" [("unit", "1"), ("curr", "EUR")] (some "388.37") [] ] ]
    rfl (by intro e he; cases he) rfl


/-- The rate loop only ever raises `ValueError` or `AttributeError` (the
conversion errors); it never raises anything else. -/
theorem parseRateElem_err_shape (d : String) (r : XmlElem) (e : PyExc)
    (h : parseRateElem d r = .error e) :
    ∃ m, e = .valueError m ∨ e = .attributeError m := by
  simp only [parseRateElem] at h
  cases hu : pyIntStr (r.attrD "unit" "1") with
  | none =>
    simp only [hu] at h
    exact ⟨_, Or.inl (Except.error.inj h).symm⟩
  | some u =>
    simp only [hu] at h
    cases ht : r.text with
    | none =>
      simp only [ht] at h
      exact ⟨_, Or.inr (Except.error.inj h).symm⟩
    | some t =>
      simp only [ht] at h
      cases hq : pyFloatQ (pyReplaceCommaDot t) with
      | none =>
        simp only [hq] at h
        exact ⟨_, Or.inl (Except.error.inj h).symm⟩
      | some q =>
        simp only [hq] at h
        exact Except.noConfusion h

/-- A Rate element whose unit does not convert, whose text is absent, or
whose normalised text does not convert, makes its loop step raise a
conversion error. -/
theorem parseRateElem_err_of_bad (d : String) (r : XmlElem)
    (hbad : pyIntStr (r.attrD "unit" "1") = none ∨ r.text = none ∨
      ∃ t, r.text = some t ∧ pyFloatQ (pyReplaceCommaDot t) = none) :
    ∃ m, parseRateElem d r = .error (.valueError m) ∨
      parseRateElem d r = .error (.attributeError m) := by
  cases hu : pyIntStr (r.attrD "unit" "1") with
  | none =>
    exact ⟨"invalid literal for int() with base 10: " ++ r.attrD "unit" "1",
      Or.inl (by simp [parseRateElem, hu])⟩
  | some u =>
    rcases hbad with hb | hb | hb
    · rw [hu] at hb; cases hb
    · exact ⟨"NoneType object has no attribute replace",
        Or.inr (by simp [parseRateElem, hu, hb])⟩
    · obtain ⟨t, ht, hq⟩ := hb
      exact ⟨"could not convert string to float: " ++ pyReplaceCommaDot t,
        Or.inl (by simp [parseRateElem, hu, ht, hq])⟩

/-- If some element of the list makes its loop step raise a conversion
error, the whole loop raises a conversion error (the first one hit). -/
theorem parseRatesLoop_err_of_mem (d : String) :
    ∀ (l : List XmlElem) (r : XmlElem), r ∈ l →
      (∃ m0, parseRateElem d r = .error (.valueError m0) ∨
        parseRateElem d r = .error (.attributeError m0)) →
      ∃ m, parseRatesLoop d l = .error (.valueError m) ∨
        parseRatesLoop d l = .error (.attributeError m) := by
  intro l
  induction l with
  | nil => intro r hr; cases hr
  | cons x xs ih =>
    intro r hr hbadr
    cases he : parseRateElem d x with
    | error e =>
      obtain ⟨m, hm⟩ := parseRateElem_err_shape d x e he
      refine ⟨m, ?_⟩
      rcases hm with rfl | rfl
      · exact Or.inl (by simp [parseRatesLoop, he])
      · exact Or.inr (by simp [parseRatesLoop, he])
    | ok x1 =>
      rcases List.mem_cons.mp hr with rfl | hr2
      · obtain ⟨m0, hm0⟩ := hbadr
        rcases hm0 with h | h
        · rw [he] at h; exact Except.noConfusion h
        · rw [he] at h; exact Except.noConfusion h
      · obtain ⟨m, hm⟩ := ih r hr2 hbadr
        refine ⟨m, ?_⟩
        rcases hm with h | h
        · exact Or.inl (by simp [parseRatesLoop, he, h])
        · exact Or.inr (by simp [parseRatesLoop, he, h])

/-- C5 counterexample: a Rate element with no curr attribute does NOT
make the parse fail; parse_current_rates succeeds and stores the absent
currency (in Python `rate_element.get("curr")` returns `None` and the
dataclass accepts it), refuting the claim that a missing currency code
fails with DataParseError. -/
theorem c5_counterexample :
    parse_current_rates (.wellFormed (.mk "MNBCurrentExchangeRates" [] none
      [ .mk "Day" [("date", "2025-11-04")] none
          [ .mk "Rate" [("unit", "1")] (some "300.5") [] ] ])) =
      .ok { date := "2025-11-04"
          , rates := [ { currency := none, unit := 1, rate := mkRat 601 2
                       , date := "2025-11-04" } ] } := by
  decide

/-- C5 (amended): in parse_current_rates, for every Rate element of the
first Day whose unit attribute is present but not an integer, or whose
text is absent, or whose text is not a valid number after comma
normalisation, the parse fails with the DataParseError variant wrapping
the message of the underlying conversion error, and no ExchangeRates value is
returned; a missing curr attribute causes no error (the entry is produced
with an absent currency). -/
theorem c5_conversion_failures (root day : XmlElem) (d : String) (r : XmlElem)
    (hday : findChild root "Day" = some day)
    (hdate : day.attr "date" = some d) (hne : d ≠ "")
    (hr : r ∈ childrenTagged day "Rate")
    (hbad : pyIntStr (r.attrD "unit" "1") = none ∨ r.text = none ∨
      ∃ t, r.text = some t ∧ pyFloatQ (pyReplaceCommaDot t) = none) :
    ∃ m, parse_current_rates (.wellFormed root) =
      .error (.dataParse ("Failed to parse exchange rate data: " ++ m)) := by
  obtain ⟨m, hm⟩ :=
    parseRatesLoop_err_of_mem d (childrenTagged day "Rate") r hr
      (parseRateElem_err_of_bad d r hbad)
  refine ⟨m, ?_⟩
  rcases hm with h | h
  · simp [parse_current_rates, currentBody, hday, currentDay, hdate, hne, h, handleCurrentExc]
  · simp [parse_current_rates, currentBody, hday, currentDay, hdate, hne, h, handleCurrentExc]

theorem c5_conversion_failures_witness :
    ∃ m, parse_current_rates (.wellFormed (.mk "MNBCurrentExchangeRates" [] none
      [ .mk "Day" [("date", "2025-11-04")] none
          [ .mk "Rate" [("unit", "abc"), ("curr", "USD")] (some "337.68") [] ] ])) =
      .error (.dataParse ("Failed to parse exchange rate data: " ++ m)) :=
  c5_conversion_failures
    (.mk "MNBCurrentExchangeRates" [] none
      [ .mk "Day" [("date", "2025-11-04")] none
          [ .mk "Rate" [("unit", "abc"), ("curr", "USD")] (some "337.68") [] ] ])
    (.mk "Day" [("date", "2025-11-04")] none
      [ .mk "Rate" [("unit", "abc"), ("curr", "USD")] (some "337.68") [] ])
    "2025-11-04"
    (.mk "Rate" [("unit", "abc"), ("curr", "USD")] (some "337.68") [])
    rfl rfl (by decide)
    (by
      have h : childrenTagged
          (.mk "Day" [("date", "2025-11-04")] none
            [ .mk "Rate" [("unit", "abc"), ("curr", "USD")] (some "337.68") [] ]) "Rate" =
          [ .mk "Rate" [("unit", "abc"), ("curr", "USD")] (some "337.68") [] ] := rfl
      rw [h]
      exact List.mem_singleton_self _)
    (Or.inl (by decide))


theorem histStep_eq (m : HistMap) (day : XmlElem) :
    histStep m day =
      match dayEntry day with
      | none => m
      | some (d, t) => dinsert m d t := by
  unfold histStep dayEntry
  cases findChild day "Rate" with
  | none => cases day.attr "date" <;> rfl
  | some r =>
    cases day.attr "date" with
    | none => rfl
    | some d =>
      by_cases hd : d = ""
      · simp [hd]
      · simp [hd]

theorem foldl_histStep_eq (days : List XmlElem) :
    ∀ acc, days.foldl histStep acc = dfold acc (days.filterMap dayEntry) := by
  induction days with
  | nil => intro acc; rfl
  | cons day rest ih =>
    intro acc
    rw [List.foldl_cons, List.filterMap_cons]
    cases hd : dayEntry day with
    | none =>
      rw [histStep_eq, hd]
      exact ih acc
    | some p =>
      obtain ⟨k, v⟩ := p
      rw [histStep_eq, hd]
      exact ih (dinsert acc k v)

/-- `parse_historical_rates` on well-formed input always succeeds, with
the fold over qualifying entries. -/
theorem parse_historical_eq (root : XmlElem) :
    parse_historical_rates (.wellFormed root) = .ok (dfold [] (specEntries root)) := by
  show Except.ok ((childrenTagged root "Day").foldl histStep []) = _
  rw [foldl_histStep_eq]
  rfl

theorem dinsert_keys_of_mem (m : HistMap) (k : String) (v : Option String)
    (h : m.any (fun p => p.1 == k) = true) :
    (dinsert m k v).map Prod.fst = m.map Prod.fst := by
  unfold dinsert
  rw [if_pos h, List.map_map]
  apply List.map_congr_left
  intro p _
  show Prod.fst (if (p.1 == k) = true then (k, v) else p) = p.1
  by_cases hpk : (p.1 == k) = true
  · rw [if_pos hpk]; exact (eq_of_beq hpk).symm
  · rw [if_neg hpk]

theorem dinsert_of_not_mem (m : HistMap) (k : String) (v : Option String)
    (h : m.any (fun p => p.1 == k) = false) :
    dinsert m k v = m ++ [(k, v)] := by
  unfold dinsert
  rw [if_neg (by simp [h])]

theorem find?_map_update (k : String) (v : Option String) :
    ∀ m : HistMap, m.any (fun p => p.1 == k) = true →
      List.find? (fun p => p.1 == k)
        (m.map (fun p => if p.1 == k then (k, v) else p)) = some (k, v) := by
  intro m
  induction m with
  | nil => intro h; simp at h
  | cons p ps ih =>
    intro h
    rw [List.map_cons]
    cases hpk : (p.1 == k) with
    | true =>
      rw [if_pos rfl]
      simp [List.find?]
    | false =>
      rw [if_neg Bool.false_ne_true]
      simp only [List.find?, hpk]
      apply ih
      simpa [List.any_cons, hpk] using h

theorem dlookup_dinsert_self (m : HistMap) (k : String) (v : Option String) :
    dlookup k (dinsert m k v) = some v := by
  by_cases h : m.any (fun p => p.1 == k) = true
  · unfold dinsert dlookup
    rw [if_pos h, find?_map_update k v m h]
    rfl
  · have h2 : m.any (fun p => p.1 == k) = false := by
      cases hb : m.any (fun p => p.1 == k) with
      | false => rfl
      | true => exact absurd hb h
    rw [dinsert_of_not_mem m k v h2]
    unfold dlookup
    rw [List.find?_append]
    have hnone : List.find? (fun p => p.1 == k) m = none :=
      List.find?_eq_none.mpr (fun x hx hfx => h (List.any_eq_true.mpr ⟨x, hx, hfx⟩))
    rw [hnone, Option.none_or, List.find?_cons_of_pos _ (by simp)]
    rfl

theorem find?_map_update_ne (k : String) (v : Option String) (k1 : String) (hne : k1 ≠ k) :
    ∀ m : HistMap,
      List.find? (fun p => p.1 == k1)
        (m.map (fun p => if p.1 == k then (k, v) else p)) =
      List.find? (fun p => p.1 == k1) m := by
  intro m
  induction m with
  | nil => rfl
  | cons p ps ih =>
    rw [List.map_cons]
    cases hpk : (p.1 == k) with
    | true =>
      rw [if_pos rfl]
      have h1 : (k == k1) = false := beq_eq_false_iff_ne.mpr (fun hc => hne hc.symm)
      have h2 : (p.1 == k1) = false := by
        rw [eq_of_beq hpk]
        exact h1
      simp only [List.find?, h1, h2]
      exact ih
    | false =>
      rw [if_neg Bool.false_ne_true]
      cases hp1 : (p.1 == k1) with
      | true => simp only [List.find?, hp1]
      | false =>
        simp only [List.find?, hp1]
        exact ih

theorem dlookup_dinsert_ne (m : HistMap) (k : String) (v : Option String) (k1 : String)
    (hne : k1 ≠ k) :
    dlookup k1 (dinsert m k v) = dlookup k1 m := by
  by_cases h : m.any (fun p => p.1 == k) = true
  · unfold dinsert dlookup
    rw [if_pos h, find?_map_update_ne k v k1 hne m]
  · have h2 : m.any (fun p => p.1 == k) = false := by
      cases hb : m.any (fun p => p.1 == k) with
      | false => rfl
      | true => exact absurd hb h
    rw [dinsert_of_not_mem m k v h2]
    unfold dlookup
    rw [List.find?_append]
    have hlast : List.find? (fun p => p.1 == k1) [(k, v)] = none := by
      simp [List.find?_cons_of_neg, beq_eq_false_iff_ne.mpr (fun hc => hne hc.symm)]
    rw [hlast, Option.or_none]


theorem firstDedupAux_congr :
    ∀ (l : List String) (s1 s2 : List String), (∀ a, a ∈ s1 ↔ a ∈ s2) →
      firstDedupAux s1 l = firstDedupAux s2 l := by
  intro l
  induction l with
  | nil => intro s1 s2 _; rfl
  | cons x xs ih =>
    intro s1 s2 h
    unfold firstDedupAux
    by_cases hx : x ∈ s1
    · rw [if_pos hx, if_pos ((h x).mp hx)]
      exact ih s1 s2 h
    · rw [if_neg hx, if_neg (fun hc => hx ((h x).mpr hc))]
      congr 1
      exact ih (x :: s1) (x :: s2) (by intro a; simp [List.mem_cons, h a])

theorem mem_firstDedupAux :
    ∀ (l : List String) (s : List String) (a : String),
      a ∈ firstDedupAux s l ↔ (a ∈ l ∧ a ∉ s) := by
  intro l
  induction l with
  | nil => intro s a; simp [firstDedupAux]
  | cons x xs ih =>
    intro s a
    unfold firstDedupAux
    by_cases hx : x ∈ s
    · rw [if_pos hx, ih s a]
      constructor
      · rintro ⟨ha, hna⟩
        exact ⟨List.mem_cons_of_mem _ ha, hna⟩
      · rintro ⟨ha, hna⟩
        rcases List.mem_cons.mp ha with rfl | h2
        · exact absurd hx hna
        · exact ⟨h2, hna⟩
    · rw [if_neg hx]
      simp only [List.mem_cons, ih (x :: s) a, List.mem_cons]
      constructor
      · rintro (rfl | ⟨ha, hna⟩)
        · exact ⟨Or.inl rfl, hx⟩
        · exact ⟨Or.inr ha, fun hc => hna (Or.inr hc)⟩
      · rintro ⟨rfl | ha, hns⟩
        · exact Or.inl rfl
        · by_cases hax : a = x
          · exact Or.inl hax
          · refine Or.inr ⟨ha, ?_⟩
            rintro (rfl | hs)
            · exact hax rfl
            · exact hns hs

theorem nodup_firstDedupAux :
    ∀ (l : List String) (s : List String), (firstDedupAux s l).Nodup := by
  intro l
  induction l with
  | nil => intro s; exact List.nodup_nil
  | cons x xs ih =>
    intro s
    unfold firstDedupAux
    by_cases hx : x ∈ s
    · rw [if_pos hx]; exact ih s
    · rw [if_neg hx]
      refine List.nodup_cons.mpr ⟨?_, ih (x :: s)⟩
      intro hc
      exact ((mem_firstDedupAux xs (x :: s) x).mp hc).2 (List.mem_cons_self x s)

theorem firstDedupAux_cons (s : List String) (x : String) (xs : List String) :
    firstDedupAux s (x :: xs) =
      if x ∈ s then firstDedupAux s xs else x :: firstDedupAux (x :: s) xs := rfl

theorem dfold_keys :
    ∀ (l : HistMap) (acc : HistMap),
      (dfold acc l).map Prod.fst =
        acc.map Prod.fst ++ firstDedupAux (acc.map Prod.fst) (l.map Prod.fst) := by
  intro l
  induction l with
  | nil => intro acc; simp [dfold, firstDedupAux]
  | cons p ps ih =>
    obtain ⟨k, v⟩ := p
    intro acc
    show (dfold (dinsert acc k v) ps).map Prod.fst = _
    simp only [List.map_cons]
    by_cases h : acc.any (fun q => q.1 == k) = true
    · have hk : k ∈ acc.map Prod.fst := by
        obtain ⟨q, hq, hqk⟩ := List.any_eq_true.mp h
        exact List.mem_map.mpr ⟨q, hq, eq_of_beq hqk⟩
      rw [ih (dinsert acc k v), dinsert_keys_of_mem acc k v h]
      rw [firstDedupAux_cons, if_pos hk]
    · have h2 : acc.any (fun q => q.1 == k) = false := by
        cases hb : acc.any (fun q => q.1 == k) with
        | false => rfl
        | true => exact absurd hb h
      have hk : k ∉ acc.map Prod.fst := by
        intro hc
        obtain ⟨q, hq, hqe⟩ := List.mem_map.mp hc
        exact h (List.any_eq_true.mpr ⟨q, hq, beq_iff_eq.mpr hqe⟩)
      rw [ih (dinsert acc k v), dinsert_of_not_mem acc k v h2]
      simp only [List.map_append, List.map_cons, List.map_nil]
      rw [firstDedupAux_cons, if_neg hk]
      rw [firstDedupAux_congr (ps.map Prod.fst) (acc.map Prod.fst ++ [k])
        (k :: acc.map Prod.fst) (by intro a; simp [List.mem_append, List.mem_cons, or_comm])]
      rw [List.append_assoc, List.singleton_append]

theorem getLast?_cons_cons {α : Type} (a b : α) (l : List α) :
    (a :: b :: l).getLast? = (b :: l).getLast? := by
  simp [List.getLast?]

theorem filter_ne_nil_of_mem_keys (k : String) (m : HistMap)
    (h : k ∈ m.map Prod.fst) : m.filter (fun p => p.1 == k) ≠ [] := by
  obtain ⟨q, hq, hqe⟩ := List.mem_map.mp h
  intro hc
  have hmem : q ∈ m.filter (fun p => p.1 == k) :=
    List.mem_filter.mpr ⟨hq, beq_iff_eq.mpr hqe⟩
  rw [hc] at hmem
  cases hmem

theorem dfold_lookup :
    ∀ (l : HistMap) (acc : HistMap) (k : String),
      dlookup k (dfold acc l) =
        if k ∈ l.map Prod.fst then
          ((l.filter (fun p => p.1 == k)).getLast?).map (fun p => p.2)
        else dlookup k acc := by
  intro l
  induction l with
  | nil => intro acc k; simp [dfold]
  | cons p ps ih =>
    obtain ⟨k0, v0⟩ := p
    intro acc k
    show dlookup k (dfold (dinsert acc k0 v0) ps) = _
    rw [ih (dinsert acc k0 v0) k]
    simp only [List.map_cons, List.filter_cons]
    by_cases hmem : k ∈ ps.map Prod.fst
    · rw [if_pos hmem, if_pos (List.mem_cons_of_mem _ hmem)]
      cases hk0 : ((k0, v0).1 == k) with
      | true =>
        rw [if_pos rfl]
        cases hfil : ps.filter (fun p => p.1 == k) with
        | nil => exact absurd hfil (filter_ne_nil_of_mem_keys k ps hmem)
        | cons q qs => rw [getLast?_cons_cons]
      | false =>
        rw [if_neg Bool.false_ne_true]
    · rw [if_neg hmem]
      cases hk0 : ((k0, v0).1 == k) with
      | true =>
        have hk0e : k0 = k := eq_of_beq hk0
        subst hk0e
        rw [dlookup_dinsert_self acc k0 v0]
        rw [if_pos (List.mem_cons_self k0 (ps.map Prod.fst))]
        rw [if_pos rfl]
        have hnil : ps.filter (fun p => p.1 == k0) = [] :=
          List.filter_eq_nil_iff.mpr (fun p hp hc =>
            hmem (List.mem_map.mpr ⟨p, hp, eq_of_beq hc⟩))
        rw [hnil]
        rfl
      | false =>
        have hne : k ≠ k0 := fun hc => by
          rw [hc] at hk0
          simp at hk0
        rw [dlookup_dinsert_ne acc k0 v0 k hne]
        rw [if_neg (by
          intro hc
          rcases List.mem_cons.mp hc with h1 | h1
          · exact hne h1
          · exact hmem h1)]

theorem dfold_eq_append :
    ∀ (l : HistMap) (acc : HistMap),
      (∀ k ∈ l.map Prod.fst, acc.any (fun p => p.1 == k) = false) →
      (l.map Prod.fst).Nodup →
      dfold acc l = acc ++ l := by
  intro l
  induction l with
  | nil => intro acc _ _; simp [dfold]
  | cons p ps ih =>
    obtain ⟨k, v⟩ := p
    intro acc hfresh hnd
    show dfold (dinsert acc k v) ps = acc ++ (k, v) :: ps
    rw [dinsert_of_not_mem acc k v (hfresh k (by simp))]
    have hnd2 : (ps.map Prod.fst).Nodup := by
      simp only [List.map_cons] at hnd
      exact (List.nodup_cons.mp hnd).2
    have hknotin : k ∉ ps.map Prod.fst := by
      simp only [List.map_cons] at hnd
      exact (List.nodup_cons.mp hnd).1
    rw [ih (acc ++ [(k, v)]) ?_ hnd2]
    · rw [List.append_assoc, List.singleton_append]
    · intro k1 hk1
      rw [List.any_append]
      have ha : acc.any (fun p => p.1 == k1) = false :=
        hfresh k1 (List.mem_cons_of_mem _ hk1)
      have hb : ([((k, v) : String × Option String)].any (fun p => p.1 == k1)) = false := by
        simp only [List.any_cons, List.any_nil, Bool.or_false]
        exact beq_eq_false_iff_ne.mpr (fun hc => hknotin (hc ▸ hk1))
      rw [ha, hb]
      rfl

theorem mem_dinsert (p : String × Option String) (m : HistMap) (k : String)
    (v : Option String) (hp : p ∈ dinsert m k v) : p ∈ m ∨ p = (k, v) := by
  unfold dinsert at hp
  by_cases h : m.any (fun q => q.1 == k) = true
  · rw [if_pos h] at hp
    obtain ⟨q, hq, hqe⟩ := List.mem_map.mp hp
    by_cases hqk : (q.1 == k) = true
    · right; rw [← hqe, if_pos hqk]
    · left; rw [← hqe, if_neg hqk]; exact hq
  · rw [if_neg h] at hp
    rcases List.mem_append.mp hp with h1 | h1
    · exact Or.inl h1
    · right
      simpa using h1

theorem mem_dfold :
    ∀ (l : HistMap) (acc : HistMap) (p : String × Option String),
      p ∈ dfold acc l → p ∈ acc ∨ p ∈ l := by
  intro l
  induction l with
  | nil => intro acc p h; exact Or.inl h
  | cons q qs ih =>
    obtain ⟨k, v⟩ := q
    intro acc p hp
    rcases ih (dinsert acc k v) p hp with h | h
    · rcases mem_dinsert p acc k v h with h2 | h2
      · exact Or.inl h2
      · exact Or.inr (by rw [h2]; exact List.mem_cons_self _ _)
    · exact Or.inr (List.mem_cons_of_mem _ h)


/-- C4 counterexample.  First input: two Day elements with the same date,
each with a date attribute and a Rate child with non-empty text (M = 2);
the result is a mapping of size 1, not 2, because dict assignment
collapses the duplicate date.  Second input: a Day whose Rate child has
no text; far from being skipped, it contributes the entry mapping its
date to the absent text. -/
theorem c4_counterexample :
    parse_historical_rates (.wellFormed (.mk "MNBExchangeRates" [] none
      [ .mk "Day" [("date", "2025-11-04")] none
          [ .mk "Rate" [("unit", "1"), ("curr", "USD")] (some "337,68000") [] ]
      , .mk "Day" [("date", "2025-11-04")] none
          [ .mk "Rate" [("unit", "1"), ("curr", "USD")] (some "336,50000") [] ] ])) =
      .ok [("2025-11-04", some "336,50000")] ∧
    parse_historical_rates (.wellFormed (.mk "MNBExchangeRates" [] none
      [ .mk "Day" [("date", "2025-11-03")] none
          [ .mk "Rate" [("unit", "1"), ("curr", "USD")] none [] ] ])) =
      .ok [("2025-11-03", none)] :=
  ⟨by decide, by decide⟩

/-- C4 (amended): for every well-formed historical XML whose qualifying
Day elements (those with a Rate sub-element and a non-empty date
attribute) carry pairwise distinct dates, parse_historical_rates returns
exactly the document-order mapping from each such date to the raw text of that Rate — which is the absent value (None) when the Rate element has no
text, such a Day NOT being skipped; Day elements missing the date
attribute or the Rate sub-element are silently skipped without error and
contribute no entry. -/
theorem c4_parse_historical_shape (root : XmlElem)
    (hnd : ((specEntries root).map Prod.fst).Nodup) :
    parse_historical_rates (.wellFormed root) = .ok (specEntries root) := by
  rw [parse_historical_eq root]
  congr 1
  have h := dfold_eq_append (specEntries root) [] (fun k _ => rfl) hnd
  simpa using h

theorem c4_parse_historical_shape_witness :
    parse_historical_rates (.wellFormed histSampleRoot) = .ok (specEntries histSampleRoot) :=
  c4_parse_historical_shape histSampleRoot (by decide)

/-- C10: for every well-formed historical XML in which the same date
appears on two or more qualifying Day elements (each containing a Rate
sub-element), the returned mapping has exactly one entry for that date,
its value is the rate text of the last such Day in document order, and
the key sequence of the mapping is the first-occurrence deduplication of the
document-order date sequence, so the entry sits at the position of the
first occurrence of the date. -/
theorem c10_duplicate_dates (root : XmlElem) (s : String)
    (hdup : 2 ≤ ((specEntries root).map Prod.fst).count s) :
    ∃ m, parse_historical_rates (.wellFormed root) = .ok m ∧
      (m.filter (fun p => p.1 == s)).length = 1 ∧
      dlookup s m = (((specEntries root).filter (fun p => p.1 == s)).getLast?).map
        (fun p => p.2) ∧
      m.map Prod.fst = firstDedup ((specEntries root).map Prod.fst) := by
  have hkeys : (dfold [] (specEntries root)).map Prod.fst =
      firstDedup ((specEntries root).map Prod.fst) := by
    have h := dfold_keys (specEntries root) []
    simpa [firstDedup] using h
  have hmem : s ∈ (specEntries root).map Prod.fst := by
    have hpos : 0 < ((specEntries root).map Prod.fst).count s :=
      lt_of_lt_of_le (by norm_num) hdup
    exact List.count_pos_iff.mp hpos
  have hnd : ((dfold [] (specEntries root)).map Prod.fst).Nodup := by
    rw [hkeys]
    exact nodup_firstDedupAux _ _
  have hmem2 : s ∈ (dfold [] (specEntries root)).map Prod.fst := by
    rw [hkeys]
    exact (mem_firstDedupAux _ _ _).mpr ⟨hmem, by simp⟩
  refine ⟨dfold [] (specEntries root), parse_historical_eq root, ?_, ?_, hkeys⟩
  · calc ((dfold [] (specEntries root)).filter (fun p => p.1 == s)).length
        = List.countP (fun p => p.1 == s) (dfold [] (specEntries root)) :=
          (List.countP_eq_length_filter _ _).symm
      _ = List.countP (fun x => x == s) ((dfold [] (specEntries root)).map Prod.fst) :=
          (List.countP_map (fun x => x == s) Prod.fst (dfold [] (specEntries root))).symm
      _ = 1 := List.count_eq_one_of_mem hnd hmem2
  · have h := dfold_lookup (specEntries root) [] s
    rw [if_pos hmem] at h
    exact h

theorem c10_duplicate_dates_witness :
    ∃ m, parse_historical_rates (.wellFormed histDupRoot) = .ok m ∧
      (m.filter (fun p => p.1 == "2025-11-04")).length = 1 ∧
      dlookup "2025-11-04" m =
        (((specEntries histDupRoot).filter (fun p => p.1 == "2025-11-04")).getLast?).map
          (fun p => p.2) ∧
      m.map Prod.fst = firstDedup ((specEntries histDupRoot).map Prod.fst) :=
  c10_duplicate_dates histDupRoot "2025-11-04" (by decide)

/-- C3: rates with a decimal comma.  First part: every value of the
mapping returned by parse_historical_rates is the verbatim text of the
first Rate element of some Day — preserved character for character, comma
included.  Second part: in a successful parse_current_rates result, the
rate of the i-th entry is the number obtained from the text of the i-th Rate by
first replacing every "," with "." and then parsing it as a decimal
value. -/
theorem c3_comma_preservation (root : XmlElem) :
    (∀ m, parse_historical_rates (.wellFormed root) = .ok m →
      ∀ p ∈ m, ∃ day r, day ∈ root.children ∧ day.tag = "Day" ∧
        findChild day "Rate" = some r ∧ day.attr "date" = some p.1 ∧ p.2 = r.text) ∧
    (∀ er day, parse_current_rates (.wellFormed root) = .ok er →
      findChild root "Day" = some day →
      ∀ (i : Nat) (hi : i < (childrenTagged day "Rate").length)
        (hi2 : i < er.rates.length),
        ∃ t, ((childrenTagged day "Rate").get ⟨i, hi⟩).text = some t ∧
          some ((er.rates.get ⟨i, hi2⟩).rate) = pyFloatQ (pyReplaceCommaDot t)) := by
  constructor
  · intro m hm p hp
    have hm2 : m = dfold [] (specEntries root) := by
      rw [parse_historical_eq root] at hm
      exact (Except.ok.inj hm).symm
    subst hm2
    rcases mem_dfold (specEntries root) [] p hp with h | h
    · cases h
    · obtain ⟨day, hday, hde⟩ := List.mem_filterMap.mp h
      have hdaymem : day ∈ root.children := (List.mem_filter.mp hday).1
      have hdaytag : day.tag = "Day" := eq_of_beq (List.mem_filter.mp hday).2
      unfold dayEntry at hde
      cases hr : findChild day "Rate" with
      | none =>
        simp only [hr] at hde
        exact Option.noConfusion hde
      | some r =>
        simp only [hr] at hde
        cases hd : day.attr "date" with
        | none =>
          simp only [hd] at hde
          exact Option.noConfusion hde
        | some d =>
          simp only [hd] at hde
          by_cases hd0 : d = ""
          · rw [if_pos hd0] at hde; cases hde
          · rw [if_neg hd0] at hde
            have hpd : (d, r.text) = p := Option.some.inj hde
            refine ⟨day, r, hdaymem, hdaytag, hr, ?_, ?_⟩
            · rw [← hpd]; exact hd
            · rw [← hpd]
  · intro er day her hday
    simp only [parse_current_rates] at her
    cases hb : currentBody (.wellFormed root) with
    | error e => rw [hb] at her; exact Except.noConfusion her
    | ok v =>
      rw [hb] at her
      have hv : v = er := Except.ok.inj her
      subst hv
      simp only [currentBody, hday] at hb
      simp only [currentDay] at hb
      cases hd : (day.attr "date") with
      | none =>
        simp only [hd] at hb
        exact Except.noConfusion hb
      | some d =>
        simp only [hd] at hb
        by_cases hd0 : d = ""
        · rw [if_pos hd0] at hb
          exact Except.noConfusion hb
        · rw [if_neg hd0] at hb
          cases hloop : parseRatesLoop d (childrenTagged day "Rate") with
          | error e => rw [hloop] at hb; exact Except.noConfusion hb
          | ok es =>
            rw [hloop] at hb
            have hve : ({ date := d, rates := es } : ExchangeRates) = v := Except.ok.inj hb
            have hrel := parseRatesLoop_ok_inv d (childrenTagged day "Rate") es hloop
            intro i hi hi2
            obtain ⟨hlen, hidx⟩ := List.forall₂_iff_get.mp hrel
            subst hve
            exact hidx i hi hi2

theorem c3_comma_preservation_witness :
    (∃ day r, day ∈ histSampleRoot.children ∧ day.tag = "Day" ∧
      findChild day "Rate" = some r ∧ day.attr "date" = some "2025-11-04" ∧
      (some "337,68000" : Option String) = r.text) ∧
    (∀ (i : Nat) (hi : i < (childrenTagged histDay1 "Rate").length)
      (hi2 : i < histSampleEr.rates.length),
      ∃ t, ((childrenTagged histDay1 "Rate").get ⟨i, hi⟩).text = some t ∧
        some ((histSampleEr.rates.get ⟨i, hi2⟩).rate) = pyFloatQ (pyReplaceCommaDot t)) :=
  ⟨(c3_comma_preservation histSampleRoot).1
      [("2025-11-04", some "337,68000"), ("2025-11-03", some "336,50000")] (by decide)
      ("2025-11-04", some "337,68000") (by decide),
   (c3_comma_preservation histSampleRoot).2 histSampleEr histDay1 (by decide) rfl⟩

end Mnb
